import Mathlib

/-!
Shallow embedding of `downloader.py` from roguer77/flasking-download.

The module-level globals (lines 16-21) become an explicit record
`ProgressState`; the yt-dlp progress-hook dictionaries become the inductive
`Event`; each Python function is translated to a Lean function of the same
name.  Strings are modelled by `String` or `List Char`; the Python float
computation `int(downloaded / total * 100)` is modelled by exact natural
floor division `downloaded * 100 / total`.
-/

/-- The process-wide progress tracker: the five module-level globals of
`downloader.py` (lines 17-21). The phase is stored as a string exactly as in
the source (one of "Preparing", "Downloading", "Processing", "Complete"). -/
structure ProgressState where
  current_download_progress : Nat
  current_download_file : String
  current_download_phase : String
  download_eta : String
  post_processing_progress : Nat
deriving DecidableEq, Repr

/-- The initial values of the globals (downloader.py lines 17-21). -/
def initState : ProgressState :=
  { current_download_progress := 0
    current_download_file := ""
    current_download_phase := "Preparing"
    download_eta := ""
    post_processing_progress := 0 }

/-- A yt-dlp progress-hook dictionary `d`, restricted to the keys the hook
reads: `status`, `downloaded_bytes`, `total_bytes`, `total_bytes_estimate`,
`_eta_str`, `postprocessor`.  Optional keys are `Option`s; a status other
than the three recognized ones is `otherStatus`. -/
inductive Event where
  | downloading (downloaded_bytes : Nat) (total_bytes : Option Nat)
      (total_bytes_estimate : Option Nat) (eta_str : Option String)
  | finished
  | postprocessing (postprocessor : Option String)
  | otherStatus
deriving DecidableEq, Repr

/-- `progress_hook` (downloader.py lines 33-65), as a state transformer.
`tb.getD 0 > 0` is Python's `'total_bytes' in d and d['total_bytes'] > 0`. -/
def progress_hook (d : Event) (s : ProgressState) : ProgressState :=
  match d with
  | .downloading db tb tbe eta =>
    let s1 := { s with current_download_phase := "Downloading" }
    let s2 :=
      if 0 < tb.getD 0 then
        { s1 with current_download_progress := db * 100 / tb.getD 0 }
      else if 0 < tbe.getD 0 then
        { s1 with current_download_progress := db * 100 / tbe.getD 0 }
      else s1
    match eta with
    | some e => { s2 with download_eta := e }
    | none => s2
  | .finished =>
    { s with current_download_phase := "Processing"
             current_download_progress := 100
             download_eta := "" }
  | .postprocessing pp =>
    let s1 := { s with current_download_phase := "Processing" }
    match pp with
    | some p =>
      if p = "MoveFiles" then { s1 with post_processing_progress := 80 }
      else if p = "FFmpegVideoConvertor" then { s1 with post_processing_progress := 90 }
      else if p = "FFmpegExtractAudio" then { s1 with post_processing_progress := 95 }
      else s1
    | none => s1
  | .otherStatus => s

/-- The record returned by `get_download_progress` (downloader.py lines
173-189). -/
structure Snapshot where
  progress : Nat
  file : String
  phase : String
  eta : String
deriving DecidableEq, Repr

/-- `get_download_progress` (downloader.py lines 173-189). -/
def get_download_progress (s : ProgressState) : Snapshot :=
  let overall :=
    if s.current_download_phase = "Processing" then
      if 0 < s.post_processing_progress then s.post_processing_progress
      else s.current_download_progress
    else s.current_download_progress
  { progress := overall
    file := s.current_download_file
    phase := s.current_download_phase
    eta := s.download_eta }

/-- The reset block at the top of `download_media` (downloader.py lines
205-209).  Note that `current_download_file` is not assigned there. -/
def reset_progress (s : ProgressState) : ProgressState :=
  { s with current_download_progress := 0
           current_download_phase := "Preparing"
           download_eta := ""
           post_processing_progress := 0 }

/-- Apply a list of progress events in order. -/
def apply_events (s : ProgressState) (evs : List Event) : ProgressState :=
  evs.foldl (fun st e => progress_hook e st) s

/-- All intermediate states of a run, oldest first. -/
def run_states (s : ProgressState) (evs : List Event) : List ProgressState :=
  evs.scanl (fun st e => progress_hook e st) s

/-- The reported percent at every point of a run. -/
def run_percents (s : ProgressState) (evs : List Event) : List Nat :=
  (run_states s evs).map (fun st => (get_download_progress st).progress)

/-- Position of a phase string in the forward chain
Preparing, Downloading, Processing, Complete. -/
def phase_rank (p : String) : Nat :=
  if p = "Preparing" then 0
  else if p = "Downloading" then 1
  else if p = "Processing" then 2
  else 3

/-- `clean_filename` (downloader.py lines 28-31):
`re.sub` over the character class of the nine Windows-invalid characters,
each occurrence replaced by an underscore. -/
def clean_filename (filename : String) : String :=
  ⟨filename.toList.map (fun c =>
    if c ∈ ['\\', '/', '*', '?', ':', '"', '<', '>', '|'] then '_' else c)⟩

/-- Python `str.split(sep)` for a one-character separator `c`: splits at every
occurrence, keeping empty fields, so the result is always non-empty. -/
def pySplit (c : Char) : List Char → List (List Char)
  | [] => [[]]
  | x :: xs =>
    if x = c then [] :: pySplit c xs
    else
      match pySplit c xs with
      | [] => [[x]]
      | p :: ps => (x :: p) :: ps

/-- Python `int(s)` restricted to the strings that occur in this program:
returns the value of a non-empty decimal digit string and fails (raises
`ValueError`) otherwise. -/
def pyIntDigits (cs : List Char) : Option Nat :=
  if cs ≠ [] ∧ cs.all (·.isDigit) then
    some (cs.foldl (fun a c => a * 10 + (c.toNat - '0'.toNat)) 0)
  else none

/-- The numeric value of a decimal digit string. -/
def digitVal (cs : List Char) : Nat :=
  cs.foldl (fun a c => a * 10 + (c.toNat - '0'.toNat)) 0

/-- The hours block of `parse_duration` (downloader.py lines 156-159):
`if 'H' in duration: hours_str, duration = duration.split('H'); hours =
int(hours_str)`.  The two-element unpacking fails unless the marker occurs
exactly once. -/
def pd_hours (duration : List Char) : Option (Nat × List Char) :=
  if duration.contains 'H' then
    match pySplit 'H' duration with
    | [hours_str, rest] => (pyIntDigits hours_str).map (fun h => (h, rest))
    | _ => none
  else some (0, duration)

/-- The minutes block of `parse_duration` (downloader.py lines 161-164). -/
def pd_minutes (duration : List Char) : Option (Nat × List Char) :=
  if duration.contains 'M' then
    match pySplit 'M' duration with
    | [minutes_str, rest] => (pyIntDigits minutes_str).map (fun m => (m, rest))
    | _ => none
  else some (0, duration)

/-- The seconds block of `parse_duration` (downloader.py lines 166-169):
`seconds = int(duration.split('S')[0])` when the marker is present. -/
def pd_seconds (duration : List Char) : Option Nat :=
  if duration.contains 'S' then pyIntDigits ((pySplit 'S' duration).headD [])
  else some 0

/-- `parse_duration` (downloader.py lines 149-171): drop the two-character
prefix, then extract the optional hour, minute and second components in that
order, returning total seconds. -/
def parse_duration (duration_str : List Char) : Option Nat := do
  let duration := duration_str.drop 2
  let (hours, d1) ← pd_hours duration
  let (minutes, d2) ← pd_minutes d1
  let seconds ← pd_seconds d2
  pure (hours * 3600 + minutes * 60 + seconds)

/-- Python `pat in s` on strings (substring containment). -/
def containsSub (pat s : List Char) : Bool := decide (pat <:+: s)

/-- `url.split('/')[-1].split('?')[0]`, the identifier extraction used by the
youtu.be, shorts and embed branches of `extract_video_id`. -/
def lastSegBeforeQuery (url : List Char) : List Char :=
  ((pySplit '/' url).getLastD []).takeWhile (· ≠ '?')

/-- `urlparse(url).query`: everything after the first '?' of the part before
the first '#' (CPython `urlsplit` drops the fragment first, then splits the
query off at the first '?'). -/
def pyQuery (url : List Char) : List Char :=
  let preFrag := url.takeWhile (· ≠ '#')
  if preFrag.contains '?' then (preFrag.dropWhile (· ≠ '?')).drop 1 else []

/-- `parse_qs(qs).get('v', [''])[0]`: split the query on '&', keep the fields
that contain '=' and have a non-empty value (parse_qs defaults:
keep_blank_values=False, strict_parsing=False), and return the first value
whose name is `v`, or the empty string.  Percent-decoding is omitted: it is
the identity on the identifier alphabet used in this development. -/
def parse_qs_v (qs : List Char) : List Char :=
  let pairs := (pySplit '&' qs).filterMap (fun p =>
    if p = [] then none
    else if p.contains '=' then
      if (p.dropWhile (· ≠ '=')).drop 1 = [] then none
      else some (p.takeWhile (· ≠ '='), (p.dropWhile (· ≠ '=')).drop 1)
    else none)
  match pairs.find? (fun nv => nv.1 == ['v']) with
  | some nv => nv.2
  | none => []

/-- `extract_video_id` (downloader.py lines 67-89).  `none` models the
`ValueError("Could not extract video ID from URL")` raised when the
extracted identifier is empty. -/
def extract_video_id (url : List Char) : Option (List Char) :=
  let video_id :=
    if containsSub "youtu.be".toList url then lastSegBeforeQuery url
    else if containsSub "youtube.com/watch".toList url then parse_qs_v (pyQuery url)
    else if containsSub "youtube.com/shorts".toList url then lastSegBeforeQuery url
    else if containsSub "youtube.com/embed".toList url then lastSegBeforeQuery url
    else []
  if video_id = [] then none else some video_id

/-- One entry of the `postprocessors` list of a yt-dlp options dictionary,
with the option keys used in this program ("preferedformat" is yt-dlp's own
spelling). -/
structure Postprocessor where
  key : String
  preferedformat : Option String := none
  preferredcodec : Option String := none
  preferredquality : Option String := none
deriving DecidableEq, Repr

/-- The yt-dlp options dictionary fields set by this program. -/
structure YdlOpts where
  format : String
  outtmpl : String
  merge_output_format : Option String := none
  postprocessors : List Postprocessor
deriving DecidableEq, Repr

/-- Python `s.replace(c, '')` for a single character: every occurrence
removed. -/
def pyReplaceCharEmpty (s : String) (c : Char) : String :=
  ⟨s.toList.filter (· ≠ c)⟩

/-- Python `s.replace(pat, '')` for a pattern string: every left-to-right,
non-overlapping occurrence removed.  A fuel argument (any bound above the
list length) keeps the recursion structural; each step consumes at least one
character, so the fuel is never exhausted when it starts above the length. -/
def removeSubAux (pat : List Char) : Nat → List Char → List Char
  | 0, l => l
  | _ + 1, [] => []
  | fuel + 1, c :: cs =>
    if pat ≠ [] ∧ pat.isPrefixOf (c :: cs) then
      removeSubAux pat fuel ((c :: cs).drop pat.length)
    else c :: removeSubAux pat fuel cs

/-- Python `s.replace(pat, '')`. -/
def removeSub (pat l : List Char) : List Char := removeSubAux pat (l.length + 1) l

/-- `int(resolution.replace('p', ''))` from `download_mp4`
(downloader.py line 236). -/
def mp4_height (resolution : String) : Option Nat :=
  pyIntDigits (pyReplaceCharEmpty resolution 'p').toList

/-- The `ydl_opts` dictionary built by `download_mp4` (downloader.py lines
236-249); `none` models the `ValueError` raised by `int` on a malformed
resolution label. -/
def mp4_ydl_opts (video_title resolution temp_dir : String) : Option YdlOpts :=
  (mp4_height resolution).map (fun height =>
    { format := "bestvideo[height<=" ++ toString height ++
        "]+bestaudio/best[height<=" ++ toString height ++ "]"
      outtmpl := temp_dir ++ "/" ++ video_title ++ ".mp4"
      merge_output_format := some "mp4"
      postprocessors := [{ key := "FFmpegVideoConvertor", preferedformat := some "mp4" }] })

/-- The `ydl_opts` dictionary built by `download_mp3` (downloader.py lines
268-281); `bitrate.replace('kbps', '')` never raises, so this is total. -/
def mp3_ydl_opts (video_title bitrate temp_dir : String) : YdlOpts :=
  let bitrate_value : String := ⟨removeSub "kbps".toList bitrate.toList⟩
  { format := "bestaudio/best"
    outtmpl := temp_dir ++ "/temp_" ++ video_title
    postprocessors := [{ key := "FFmpegExtractAudio"
                         preferredcodec := some "mp3"
                         preferredquality := some bitrate_value }] }

/-- `os.rename` inside a single directory whose listing has distinct entries:
the entry `src` becomes `dst`. -/
def fsRename (listing : List String) (src dst : String) : List String :=
  listing.map (fun f => if f = src then dst else f)

/-- The finalisation tail of `download_mp3` (downloader.py lines 287-302),
over the listing of the temporary directory: if the expected temp name
exists it is renamed to the final name; otherwise the first entry starting
with "temp_" and ending with ".mp3" is renamed; the final name (relative to
the temporary directory) is returned in every case, without error.  Returns
the listing after the renames together with the returned file name. -/
def download_mp3_finalize (listing : List String) (video_title : String) :
    List String × String :=
  let output_file := video_title ++ ".mp3"
  let final_output := "temp_" ++ video_title ++ ".mp3"
  if final_output ∈ listing then
    (fsRename listing final_output output_file, output_file)
  else
    match listing.find? (fun f => f.startsWith "temp_" && f.endsWith ".mp3") with
    | some f => (fsRename listing f output_file, output_file)
    | none => (listing, output_file)

/-- The external collaborators of `download_media`: the outcome of
`tempfile.mkdtemp`, of `get_video_info` (reduced to the title used for
naming), and of the two yt-dlp pipeline invocations.  Each `Except.error`
carries `str(e)` of the exception raised at that step. -/
structure Env where
  mkdtemp : Except String String
  video_info_title : Except String String
  run_pipeline_mp4 : Except String Unit
  run_pipeline_mp3 : Except String Unit
deriving Repr

/-- `download_mp4` (downloader.py lines 232-262): build the options (where
`int` may raise), run the pipeline, return the output path; any exception is
re-raised as `ValueError("Download failed: " + str(e))`. -/
def download_mp4 (env : Env) (video_title resolution temp_dir : String) :
    Except String String :=
  match mp4_height resolution with
  | none =>
    Except.error ("Download failed: invalid literal for int() with base 10: '"
      ++ pyReplaceCharEmpty resolution 'p' ++ "'")
  | some _ =>
    match env.run_pipeline_mp4 with
    | Except.ok _ => Except.ok (temp_dir ++ "/" ++ video_title ++ ".mp4")
    | Except.error e => Except.error ("Download failed: " ++ e)

/-- `download_mp3` (downloader.py lines 264-309): run the pipeline and return
the finalised output path; any exception is re-raised as
`ValueError("Download failed: " + str(e))`.  The directory listing used by
the finaliser is abstracted away here (see `download_mp3_finalize`); the
returned path is `temp_dir ++ "/" ++ video_title ++ ".mp3"` on every
success path of the source. -/
def download_mp3 (env : Env) (video_title bitrate temp_dir : String) :
    Except String String :=
  match env.run_pipeline_mp3 with
  | Except.ok _ => Except.ok (temp_dir ++ "/" ++ video_title ++ ".mp3")
  | Except.error e => Except.error ("Download failed: " ++ e)

/-- `download_media` (downloader.py lines 191-230) as a state-passing
function: reset the progress trackers (not the file label), create the
temporary directory, resolve the title, record it as the current file label,
dispatch on the format, and wrap any exception as
`ValueError("Download failed: " + str(e))`. -/
def download_media (env : Env) (s : ProgressState) (format_type quality : String) :
    ProgressState × Except String String :=
  let s0 := reset_progress s
  match env.mkdtemp with
  | Except.error e => (s0, Except.error ("Download failed: " ++ e))
  | Except.ok temp_dir =>
    match env.video_info_title with
    | Except.error e => (s0, Except.error ("Download failed: " ++ e))
    | Except.ok title =>
      let video_title := clean_filename title
      let s1 := { s0 with current_download_file := video_title }
      if format_type = "mp4" then
        match download_mp4 env video_title quality temp_dir with
        | Except.ok p => (s1, Except.ok p)
        | Except.error e => (s1, Except.error ("Download failed: " ++ e))
      else if format_type = "mp3" then
        match download_mp3 env video_title quality temp_dir with
        | Except.ok p => (s1, Except.ok p)
        | Except.error e => (s1, Except.error ("Download failed: " ++ e))
      else (s1, Except.error ("Download failed: Unsupported format: " ++ format_type))

/-- An in-progress event with a known positive total, as built by yt-dlp from
a byte count and a total. -/
def dl_event (p : Nat × Nat) : Event :=
  Event.downloading p.1 (some p.2) none none

/-- The percent the hook computes for such an event. -/
def dl_percent (p : Nat × Nat) : Nat := p.1 * 100 / p.2

/-- A non-empty decimal digit string. -/
def DigitStr (cs : List Char) : Prop := cs ≠ [] ∧ ∀ c ∈ cs, c.isDigit

instance : DecidablePred DigitStr := fun cs => by
  unfold DigitStr; infer_instance

/-- The shape of a compact duration token: a two-character prefix followed by
an optional digit run terminated by 'H', an optional digit run terminated by
'M', and an optional digit run terminated by 'S', in that order. -/
def durToken (h m s : Option (List Char)) : List Char :=
  'P' :: 'T' ::
    (h.elim [] (fun d => d ++ ['H']) ++
      (m.elim [] (fun d => d ++ ['M']) ++ s.elim [] (fun d => d ++ ['S'])))

/-- The alphabet of a valid video identifier: letters, digits, '-' and '_'. -/
def idChar (c : Char) : Bool := c.isAlphanum || c == '-' || c == '_'

/-- A valid embedded identifier: non-empty and over the identifier
alphabet. -/
def ValidId (id : List Char) : Prop := id ≠ [] ∧ ∀ c ∈ id, idChar c

/-- The short-link shape. -/
def shortUrl (id : List Char) : List Char := "https://youtu.be/".toList ++ id

/-- The canonical watch-link shape. -/
def watchUrl (id : List Char) : List Char :=
  "https://www.youtube.com/watch?v=".toList ++ id

/-- The shorts-link shape. -/
def shortsUrl (id : List Char) : List Char :=
  "https://www.youtube.com/shorts/".toList ++ id

/-- The embed-link shape. -/
def embedUrl (id : List Char) : List Char :=
  "https://www.youtube.com/embed/".toList ++ id

/-- Boolean check refuting every boundary-straddling occurrence of `pat` at
the end of `a` followed by characters of the `good` alphabet. -/
def noStraddle (pat a : List Char) (good : Char → Bool) : Bool :=
  (List.range pat.length).all fun k =>
    k == 0 || !(decide (pat.take k <:+ a)) || !(good ((pat.drop k).headD ' '))

/-! ### Helper lemmas about the progress hook -/

theorem hook_dl_phase (s : ProgressState) (db : Nat) (tb tbe : Option Nat)
    (eta : Option String) :
    (progress_hook (.downloading db tb tbe eta) s).current_download_phase
      = "Downloading" := by
  cases eta <;> simp only [progress_hook] <;> split_ifs <;> rfl

theorem hook_pp_phase (s : ProgressState) (pp : Option String) :
    (progress_hook (.postprocessing pp) s).current_download_phase = "Processing" := by
  cases pp with
  | none => rfl
  | some p => simp only [progress_hook]; split_ifs <;> rfl

theorem hook_pp_named (s : ProgressState) (p : String) (v : Nat)
    (h : (p, v) ∈ [("MoveFiles", 80), ("FFmpegVideoConvertor", 90),
        ("FFmpegExtractAudio", 95)]) :
    progress_hook (.postprocessing (some p)) s =
      { s with current_download_phase := "Processing"
               post_processing_progress := v } := by
  simp only [List.mem_cons, List.not_mem_nil, or_false, Prod.mk.injEq] at h
  rcases h with ⟨rfl, rfl⟩ | ⟨rfl, rfl⟩ | ⟨rfl, rfl⟩ <;> rfl

theorem hook_dl_pos (s : ProgressState) (db tb : Nat) (htb : 0 < tb) :
    progress_hook (dl_event (db, tb)) s =
      { s with current_download_phase := "Downloading"
               current_download_progress := db * 100 / tb } := by
  simp only [dl_event, progress_hook, Option.getD_some]
  rw [if_pos htb]

theorem snapshot_progress_of_ppp_zero (s : ProgressState)
    (h : s.post_processing_progress = 0) :
    (get_download_progress s).progress = s.current_download_progress := by
  simp only [get_download_progress, h]
  split_ifs with h1 h2
  · exact absurd h2 (by omega)
  · rfl
  · rfl

theorem run_percents_nil (s : ProgressState) :
    run_percents s [] = [(get_download_progress s).progress] := rfl

theorem run_percents_cons (s : ProgressState) (e : Event) (evs : List Event) :
    run_percents s (e :: evs) =
      (get_download_progress s).progress :: run_percents (progress_hook e s) evs := by
  simp [run_percents, run_states, List.scanl_cons]

theorem run_percents_head (s : ProgressState) (evs : List Event) :
    (run_percents s evs).head? = some ((get_download_progress s).progress) := by
  cases evs with
  | nil => rfl
  | cons e evs => rw [run_percents_cons]; rfl

theorem hook_fin (s : ProgressState) :
    progress_hook Event.finished s =
      { s with current_download_phase := "Processing"
               current_download_progress := 100
               download_eta := "" } := rfl

theorem dl_percent_le_100 (db tb : Nat) (htb : 0 < tb) (hdb : db ≤ tb) :
    db * 100 / tb ≤ 100 := by
  have h1 : db * 100 ≤ tb * 100 := Nat.mul_le_mul_right 100 hdb
  have h2 : db * 100 / tb ≤ tb * 100 / tb := Nat.div_le_div_right h1
  rwa [Nat.mul_comm tb 100, Nat.mul_div_cancel 100 htb] at h2

/-- In a run made of in-progress events with positive totals, transferred
bytes at most the total and non-decreasing computed percentages, followed by
a finished event, the reported percent never decreases. -/
theorem dl_chain_aux (bts : List (Nat × Nat)) :
    ∀ s : ProgressState,
      s.post_processing_progress = 0 →
      s.current_download_progress ≤ (bts.map dl_percent).headD 100 →
      (∀ p ∈ bts, 0 < p.2 ∧ p.1 ≤ p.2) →
      List.Chain' (· ≤ ·) (bts.map dl_percent) →
      List.Chain' (· ≤ ·)
        (run_percents s (bts.map dl_event ++ [Event.finished])) := by
  induction bts with
  | nil =>
    intro s hppp hhead _ _
    simp only [List.map_nil, List.nil_append]
    rw [run_percents_cons, run_percents_nil, hook_fin]
    have h1 : (get_download_progress s).progress = s.current_download_progress :=
      snapshot_progress_of_ppp_zero s hppp
    have h2 : (get_download_progress
        { s with current_download_phase := "Processing"
                 current_download_progress := 100
                 download_eta := "" }).progress = 100 :=
      snapshot_progress_of_ppp_zero _ hppp
    rw [h1, h2]
    simp only [List.chain'_cons, List.chain'_singleton, and_true]
    simpa using hhead
  | cons hd rest ih =>
    intro s hppp hhead hpos hmono
    obtain ⟨db, tb⟩ := hd
    have htb : 0 < tb := (hpos (db, tb) (List.mem_cons_self _ _)).1
    have hdb : db ≤ tb := (hpos (db, tb) (List.mem_cons_self _ _)).2
    simp only [List.map_cons, List.cons_append]
    rw [run_percents_cons, hook_dl_pos s db tb htb]
    apply List.chain'_cons'.mpr
    refine ⟨?_, ?_⟩
    · intro y hy
      rw [run_percents_head] at hy
      have hy' : y = (get_download_progress
          { s with current_download_phase := "Downloading"
                   current_download_progress := db * 100 / tb }).progress := by
        simpa using hy.symm
      rw [hy', snapshot_progress_of_ppp_zero s hppp,
        snapshot_progress_of_ppp_zero
          { s with current_download_phase := "Downloading"
                   current_download_progress := db * 100 / tb } hppp]
      simpa [dl_percent] using hhead
    · apply ih
      · exact hppp
      · show db * 100 / tb ≤ (rest.map dl_percent).headD 100
        cases rest with
        | nil => exact dl_percent_le_100 db tb htb hdb
        | cons hd2 rest2 =>
          simp only [List.map_cons, List.chain'_cons] at hmono
          simpa [dl_percent] using hmono.1
      · intro p hp
        exact hpos p (List.mem_cons_of_mem _ hp)
      · simp only [List.map_cons] at hmono
        exact hmono.tail

example : parse_duration "PT1H21M54S".toList = some 4914 := by decide
example : parse_duration "PT2M".toList = some 120 := by decide
example : parse_duration "PT".toList = some 0 := by decide
example : extract_video_id "https://youtu.be/abc123".toList = some "abc123".toList := by decide
example : extract_video_id "https://www.youtube.com/watch?v=abc123".toList
    = some "abc123".toList := by decide
example : extract_video_id "https://example.com/x".toList = none := by decide

/-! ### Claim theorems: progress tracker -/

/-- C1 counterexample: with the reported percent at 92, a move-file
post-processing event (claimed floor 80) lowers the reported percent to 80,
so the claim that the percent is left unchanged when it already exceeds the
floor is false on the code. -/
theorem c1_counterexample :
    (get_download_progress
        (progress_hook (.downloading 92 (some 100) none none)
          (reset_progress initState))).progress = 92 ∧
    (get_download_progress
        (progress_hook (.postprocessing (some "MoveFiles"))
          (progress_hook (.downloading 92 (some 100) none none)
            (reset_progress initState)))).progress = 80 := by
  exact ⟨by decide, by decide⟩

/-- C1 (amended): a post-processing event with a named step sets the phase to
Processing and sets the reported percent to exactly the step value
(move-file 80, video-transcode 90, audio-extract 95) regardless of the
current percent: the values are overwrites, not monotone floors, so the
reported percent can be lowered. -/
theorem c1_main (s : ProgressState) (p : String) (v : Nat)
    (h : (p, v) ∈ [("MoveFiles", 80), ("FFmpegVideoConvertor", 90),
        ("FFmpegExtractAudio", 95)]) :
    (progress_hook (.postprocessing (some p)) s).current_download_phase
        = "Processing" ∧
    (get_download_progress
        (progress_hook (.postprocessing (some p)) s)).progress = v := by
  rw [hook_pp_named s p v h]
  have hv : 0 < v := by
    simp only [List.mem_cons, List.not_mem_nil, or_false, Prod.mk.injEq] at h
    rcases h with ⟨-, rfl⟩ | ⟨-, rfl⟩ | ⟨-, rfl⟩ <;> omega
  refine ⟨rfl, ?_⟩
  simp [get_download_progress, hv]

theorem c1_witness :
    (("MoveFiles", (80 : Nat)) ∈ [("MoveFiles", 80), ("FFmpegVideoConvertor", 90),
        ("FFmpegExtractAudio", 95)]) ∧
    ((progress_hook (.postprocessing (some "MoveFiles")) initState).current_download_phase
        = "Processing" ∧
      (get_download_progress
          (progress_hook (.postprocessing (some "MoveFiles")) initState)).progress = 80) :=
  ⟨by decide, c1_main initState "MoveFiles" 80 (by decide)⟩

/-- C2 counterexample: after a reset, the run finished-then-audio-extract
reports the percents 0, 100, 95, which is not monotonically non-decreasing:
the finished event reports 100 and the subsequent post-processing event
lowers the report to 95. -/
theorem c2_counterexample :
    run_percents (reset_progress initState)
        [Event.finished, Event.postprocessing (some "FFmpegExtractAudio")]
      = [0, 100, 95] ∧
    ¬ List.Chain' (· ≤ ·)
        (run_percents (reset_progress initState)
          [Event.finished, Event.postprocessing (some "FFmpegExtractAudio")]) := by
  have h1 : run_percents (reset_progress initState)
      [Event.finished, Event.postprocessing (some "FFmpegExtractAudio")]
      = [0, 100, 95] := by decide
  refine ⟨h1, ?_⟩
  intro hch
  rw [h1] at hch
  rcases List.chain'_cons.mp hch with ⟨-, h2⟩
  rcases List.chain'_cons.mp h2 with ⟨h3, -⟩
  omega

/-- C2 (amended): the reported percent is monotonically non-decreasing after
a reset for runs of in-progress events with known positive totals,
transferred bytes at most the total, and non-decreasing computed
percentages, optionally followed by the finished event; in general the
invariant fails, because a post-processing event can lower the reported
percent (see the counterexample). -/
theorem c2_main (bts : List (Nat × Nat)) (s : ProgressState)
    (hpos : ∀ p ∈ bts, 0 < p.2 ∧ p.1 ≤ p.2)
    (hmono : List.Chain' (· ≤ ·) (bts.map dl_percent)) :
    List.Chain' (· ≤ ·)
      (run_percents (reset_progress s) (bts.map dl_event ++ [Event.finished])) := by
  apply dl_chain_aux bts (reset_progress s) rfl _ hpos hmono
  exact Nat.zero_le _

theorem c2_witness :
    (∀ p ∈ [((25 : Nat), (100 : Nat)), (80, 100)], 0 < p.2 ∧ p.1 ≤ p.2) ∧
    List.Chain' (· ≤ ·) ([((25 : Nat), (100 : Nat)), (80, 100)].map dl_percent) ∧
    List.Chain' (· ≤ ·)
      (run_percents (reset_progress initState)
        ([((25 : Nat), (100 : Nat)), (80, 100)].map dl_event ++ [Event.finished])) := by
  have hmono : List.Chain' (· ≤ ·) ([((25 : Nat), (100 : Nat)), (80, 100)].map dl_percent) := by
    rw [show [((25 : Nat), (100 : Nat)), (80, 100)].map dl_percent = [25, 80] from by decide]
    exact List.chain'_cons.mpr ⟨by omega, List.chain'_singleton 80⟩
  exact ⟨by decide, hmono, c2_main [(25, 100), (80, 100)] initState (by decide) hmono⟩

/-- C3 counterexample: a finished event moves the phase to Processing, after
which an in-progress event moves it back to Downloading, an earlier value in
the order Preparing, Downloading, Processing, Complete — so the phase is not
forward-only. -/
theorem c3_counterexample :
    (progress_hook Event.finished (reset_progress initState)).current_download_phase
        = "Processing" ∧
    (progress_hook (Event.downloading 5 (some 100) none none)
          (progress_hook Event.finished (reset_progress initState))).current_download_phase
        = "Downloading" ∧
    phase_rank "Downloading" < phase_rank "Processing" := by
  exact ⟨by decide, by decide, by decide⟩

/-- C3 (amended): from any phase the code can reach (Preparing, Downloading
or Processing — Complete is never assigned), no event moves the phase
backward, with exactly one exception: an in-progress event always sets the
phase to Downloading, which is a regression when the phase was already
Processing.  Moreover no event ever restores the phase to Preparing. -/
theorem c3_main (s : ProgressState) (e : Event)
    (hs : s.current_download_phase = "Preparing" ∨
      s.current_download_phase = "Downloading" ∨
      s.current_download_phase = "Processing") :
    (phase_rank s.current_download_phase
        ≤ phase_rank (progress_hook e s).current_download_phase ∨
      (s.current_download_phase = "Processing" ∧
        (progress_hook e s).current_download_phase = "Downloading" ∧
        ∃ db tb tbe eta, e = Event.downloading db tb tbe eta)) ∧
    ((progress_hook e s).current_download_phase = "Preparing" →
      s.current_download_phase = "Preparing") := by
  cases e with
  | downloading db tb tbe eta =>
    rw [hook_dl_phase]
    constructor
    · rcases hs with h | h | h
      · left; rw [h]; decide
      · left; rw [h]
      · right; exact ⟨h, rfl, db, tb, tbe, eta, rfl⟩
    · intro h; exact absurd h (by decide)
  | finished =>
    rw [show (progress_hook Event.finished s).current_download_phase = "Processing" from rfl]
    constructor
    · left
      rcases hs with h | h | h <;> rw [h] <;> decide
    · intro h; exact absurd h (by decide)
  | postprocessing pp =>
    rw [hook_pp_phase]
    constructor
    · left
      rcases hs with h | h | h <;> rw [h] <;> decide
    · intro h; exact absurd h (by decide)
  | otherStatus =>
    exact ⟨Or.inl le_rfl, fun h => h⟩

theorem c3_witness :
    ((initState.current_download_phase = "Preparing" ∨
        initState.current_download_phase = "Downloading" ∨
        initState.current_download_phase = "Processing")) ∧
    ((phase_rank initState.current_download_phase
        ≤ phase_rank (progress_hook Event.finished initState).current_download_phase ∨
      (initState.current_download_phase = "Processing" ∧
        (progress_hook Event.finished initState).current_download_phase = "Downloading" ∧
        ∃ db tb tbe eta, Event.finished = Event.downloading db tb tbe eta)) ∧
    ((progress_hook Event.finished initState).current_download_phase = "Preparing" →
      initState.current_download_phase = "Preparing")) :=
  ⟨Or.inl rfl, c3_main initState Event.finished (Or.inl rfl)⟩

/-- C4 counterexample: `download_media` does not clear the file label when it
resets the trackers, so a poll issued immediately after orchestration begins
(here: while the temporary-directory step fails) still observes the previous
run's file label instead of the empty string. -/
theorem c4_counterexample :
    (get_download_progress
        (download_media
          ⟨Except.error "boom", Except.ok "t", Except.ok (), Except.ok ()⟩
          { initState with current_download_file := "previous_title" }
          "mp4" "720p").1).file = "previous_title" ∧
    ("previous_title" : String) ≠ "" := by
  exact ⟨by decide, by decide⟩

/-- C4 (amended): the reset at the start of `download_media` sets the
snapshot to percent 0, phase Preparing and empty eta, but keeps the previous
run's file label: the file field is not cleared.  Consequently, when
orchestration fails before the new title is recorded, the state left by
`download_media` is exactly the reset state, previous file label included. -/
theorem c4_main (s : ProgressState) :
    get_download_progress (reset_progress s) =
      { progress := 0, file := s.current_download_file,
        phase := "Preparing", eta := "" } ∧
    (∀ (env : Env) (format_type quality m : String),
      env.mkdtemp = Except.error m →
      (download_media env s format_type quality).1 = reset_progress s) := by
  constructor
  · rfl
  · intro env fmt q m hm
    simp [download_media, hm]

theorem c4_witness :
    ((⟨Except.error "fail", Except.ok "t", Except.ok (), Except.ok ()⟩ : Env).mkdtemp
        = Except.error "fail") ∧
    (download_media ⟨Except.error "fail", Except.ok "t", Except.ok (), Except.ok ()⟩
        { initState with current_download_file := "old" } "mp4" "720p").1
      = reset_progress { initState with current_download_file := "old" } :=
  ⟨rfl, (c4_main { initState with current_download_file := "old" }).2
    ⟨Except.error "fail", Except.ok "t", Except.ok (), Except.ok ()⟩ "mp4" "720p" "fail" rfl⟩

/-! ### Claim theorems: filename sanitisation, pipeline specs, finaliser -/

/-- C10: `clean_filename` maps each of the nine invalid characters to an
underscore and leaves every other character (underscore included) unchanged,
so its output contains no character it would replace and the function is
idempotent. -/
theorem c10_main (s : String) :
    (∀ c : Char, c ∈ ['\\', '/', '*', '?', ':', '"', '<', '>', '|'] →
      clean_filename ⟨[c]⟩ = "_") ∧
    (∀ c : Char, c ∉ ['\\', '/', '*', '?', ':', '"', '<', '>', '|'] →
      clean_filename ⟨[c]⟩ = ⟨[c]⟩) ∧
    clean_filename (clean_filename s) = clean_filename s := by
  refine ⟨?_, ?_, ?_⟩
  · intro c hc
    show (⟨[if c ∈ ['\\', '/', '*', '?', ':', '"', '<', '>', '|'] then '_' else c]⟩ : String)
      = "_"
    rw [if_pos hc]
  · intro c hc
    show (⟨[if c ∈ ['\\', '/', '*', '?', ':', '"', '<', '>', '|'] then '_' else c]⟩ : String)
      = ⟨[c]⟩
    rw [if_neg hc]
  · show (⟨(String.mk (s.toList.map _)).toList.map _⟩ : String) = _
    have ht : (String.mk (s.toList.map (fun c =>
        if c ∈ ['\\', '/', '*', '?', ':', '"', '<', '>', '|'] then '_' else c))).toList
        = s.toList.map (fun c =>
        if c ∈ ['\\', '/', '*', '?', ':', '"', '<', '>', '|'] then '_' else c) := rfl
    rw [ht, List.map_map]
    congr 1
    apply List.map_congr_left
    intro c _
    by_cases h : c ∈ ['\\', '/', '*', '?', ':', '"', '<', '>', '|']
    · simp [h, Function.comp]
    · simp [h, Function.comp]

theorem c10_witness :
    clean_filename ⟨['<']⟩ = "_" ∧
    clean_filename ⟨['a']⟩ = ⟨['a']⟩ ∧
    clean_filename (clean_filename "a<b*c") = clean_filename "a<b*c" :=
  ⟨(c10_main "").1 '<' (by decide),
   (c10_main "").2.1 'a' (by decide),
   (c10_main "a<b*c").2.2⟩

/-- C6: for format video with quality "720p" the orchestrator builds the
selector for best video of height at most 720 plus best audio, falling back
to a combined best stream of height at most 720, merged into a single mp4
container at tempDir/title.mp4; for format audio with quality "128kbps" it
requests the best audio stream with an audio-extraction post-processing step
at bitrate target 128 writing to the temporary name tempDir/temp_title. -/
theorem c6_main (video_title temp_dir : String) :
    mp4_ydl_opts video_title "720p" temp_dir =
      some { format := "bestvideo[height<=720]+bestaudio/best[height<=720]"
             outtmpl := temp_dir ++ "/" ++ video_title ++ ".mp4"
             merge_output_format := some "mp4"
             postprocessors := [{ key := "FFmpegVideoConvertor"
                                  preferedformat := some "mp4" }] } ∧
    mp3_ydl_opts video_title "128kbps" temp_dir =
      { format := "bestaudio/best"
        outtmpl := temp_dir ++ "/temp_" ++ video_title
        postprocessors := [{ key := "FFmpegExtractAudio"
                             preferredcodec := some "mp3"
                             preferredquality := some "128" }] } :=
  ⟨rfl, rfl⟩

theorem fsRename_mem_dst {l : List String} {src : String} (dst : String)
    (h : src ∈ l) : dst ∈ fsRename l src dst := by
  apply List.mem_map.mpr
  exact ⟨src, h, by simp⟩

theorem fsRename_not_mem_src {l : List String} {src dst : String}
    (hne : dst ≠ src) : src ∉ fsRename l src dst := by
  intro hmem
  rcases List.mem_map.mp hmem with ⟨a, -, ha⟩
  by_cases h : a = src
  · rw [if_pos h] at ha; exact hne ha
  · rw [if_neg h] at ha; exact h ha

theorem fsRename_mem_other {l : List String} {x src : String} (dst : String)
    (hx : x ∈ l) (hxs : x ≠ src) : x ∈ fsRename l src dst := by
  apply List.mem_map.mpr
  exact ⟨x, hx, by rw [if_neg hxs]⟩

theorem temp_name_ne (t : String) : "temp_" ++ t ++ ".mp3" ≠ t ++ ".mp3" := by
  intro h
  have hl := congrArg String.length h
  simp only [String.length_append] at hl
  rw [show ("temp_" : String).length = 5 from rfl,
    show (".mp3" : String).length = 4 from rfl] at hl
  omega

/-- C5: the audio finaliser always returns the expected final name
title.mp3 (relative to the temporary directory) and never raises; when the
expected temporary name temp_title.mp3 is present it is renamed to the final
name; otherwise the first entry starting with "temp_" and ending with ".mp3"
is renamed to the final name (other entries untouched); and when no entry
matches at all the directory is left unchanged and the (unmet) expected
final name is still returned. -/
theorem c5_main (listing : List String) (video_title : String) :
    (download_mp3_finalize listing video_title).2 = video_title ++ ".mp3" ∧
    (("temp_" ++ video_title ++ ".mp3") ∈ listing →
      (video_title ++ ".mp3") ∈ (download_mp3_finalize listing video_title).1 ∧
      ("temp_" ++ video_title ++ ".mp3") ∉ (download_mp3_finalize listing video_title).1) ∧
    (("temp_" ++ video_title ++ ".mp3") ∉ listing →
      ∀ f, listing.find? (fun g => g.startsWith "temp_" && g.endsWith ".mp3") = some f →
        (video_title ++ ".mp3") ∈ (download_mp3_finalize listing video_title).1 ∧
        (f ≠ video_title ++ ".mp3" → f ∉ (download_mp3_finalize listing video_title).1) ∧
        (∀ g ∈ listing, g ≠ f → g ∈ (download_mp3_finalize listing video_title).1)) ∧
    (("temp_" ++ video_title ++ ".mp3") ∉ listing →
      listing.find? (fun g => g.startsWith "temp_" && g.endsWith ".mp3") = none →
      download_mp3_finalize listing video_title = (listing, video_title ++ ".mp3")) := by
  refine ⟨?_, ?_, ?_, ?_⟩
  · simp only [download_mp3_finalize]
    split
    · rfl
    · split <;> rfl
  · intro hmem
    simp only [download_mp3_finalize]
    rw [if_pos hmem]
    exact ⟨fsRename_mem_dst _ hmem,
      fsRename_not_mem_src (temp_name_ne video_title).symm⟩
  · intro hnot f hf
    simp only [download_mp3_finalize]
    rw [if_neg hnot, hf]
    refine ⟨fsRename_mem_dst _ (List.mem_of_find?_eq_some hf), ?_, ?_⟩
    · intro hne
      exact fsRename_not_mem_src (fun h => hne h.symm)
    · intro g hg hgf
      exact fsRename_mem_other _ hg hgf
  · intro hnot hnone
    simp only [download_mp3_finalize]
    rw [if_neg hnot, hnone]

theorem c5_witness :
    (("temp_" ++ "song" ++ ".mp3") ∈ ["other.txt", "temp_song.mp3"]) ∧
    (("song" ++ ".mp3")
        ∈ (download_mp3_finalize ["other.txt", "temp_song.mp3"] "song").1 ∧
      ("temp_" ++ "song" ++ ".mp3")
        ∉ (download_mp3_finalize ["other.txt", "temp_song.mp3"] "song").1) :=
  ⟨by decide, (c5_main ["other.txt", "temp_song.mp3"] "song").2.1 (by decide)⟩

theorem msg_infix (pre m : String) : m.toList <:+: (pre ++ m).toList := by
  show m.data <:+: (pre ++ m).data
  rw [show (pre ++ m).data = pre.data ++ m.data from rfl]
  exact (List.suffix_append pre.data m.data).isInfix

theorem msg_infix2 (a b m : String) : m.toList <:+: (a ++ (b ++ m)).toList := by
  show m.data <:+: (a ++ (b ++ m)).data
  rw [show (a ++ (b ++ m)).data = a.data ++ (b.data ++ m.data) from rfl,
    ← List.append_assoc]
  exact (List.suffix_append (a.data ++ b.data) m.data).isInfix

/-- C9: every failure surfaced during orchestration — temporary-directory
creation, metadata resolution, or either download path including
pipeline-reported errors — makes `download_media` return a wrapped
"Download failed: ..." error whose message contains the original failure's
message as a substring. -/
theorem c9_main (env : Env) (s : ProgressState) (quality m : String) :
    (env.mkdtemp = Except.error m →
      ∀ format_type, ∃ w,
        (download_media env s format_type quality).2 = Except.error w ∧
        m.toList <:+: w.toList) ∧
    (∀ td, env.mkdtemp = Except.ok td →
      env.video_info_title = Except.error m →
      ∀ format_type, ∃ w,
        (download_media env s format_type quality).2 = Except.error w ∧
        m.toList <:+: w.toList) ∧
    (∀ td t h, env.mkdtemp = Except.ok td →
      env.video_info_title = Except.ok t →
      mp4_height quality = some h →
      env.run_pipeline_mp4 = Except.error m →
      ∃ w, (download_media env s "mp4" quality).2 = Except.error w ∧
        m.toList <:+: w.toList) ∧
    (∀ td t, env.mkdtemp = Except.ok td →
      env.video_info_title = Except.ok t →
      env.run_pipeline_mp3 = Except.error m →
      ∃ w, (download_media env s "mp3" quality).2 = Except.error w ∧
        m.toList <:+: w.toList) := by
  refine ⟨?_, ?_, ?_, ?_⟩
  · intro hm fmt
    refine ⟨"Download failed: " ++ m, ?_, msg_infix _ m⟩
    simp [download_media, hm]
  · intro td htd hv fmt
    refine ⟨"Download failed: " ++ m, ?_, msg_infix _ m⟩
    simp [download_media, htd, hv]
  · intro td t h htd hv hh hp
    refine ⟨"Download failed: " ++ ("Download failed: " ++ m), ?_,
      msg_infix2 _ _ m⟩
    simp [download_media, download_mp4, htd, hv, hh, hp]
  · intro td t htd hv hp
    refine ⟨"Download failed: " ++ ("Download failed: " ++ m), ?_,
      msg_infix2 _ _ m⟩
    simp [download_media, download_mp3, htd, hv, hp]

theorem c9_witness :
    ((⟨Except.ok "/tmp/x", Except.ok "title", Except.error "HTTP Error 403",
        Except.ok ()⟩ : Env).mkdtemp = Except.ok "/tmp/x") ∧
    ((⟨Except.ok "/tmp/x", Except.ok "title", Except.error "HTTP Error 403",
        Except.ok ()⟩ : Env).video_info_title = Except.ok "title") ∧
    ((⟨Except.ok "/tmp/x", Except.ok "title", Except.error "HTTP Error 403",
        Except.ok ()⟩ : Env).run_pipeline_mp4 = Except.error "HTTP Error 403") ∧
    mp4_height "720p" = some 720 ∧
    (∃ w, (download_media
        ⟨Except.ok "/tmp/x", Except.ok "title", Except.error "HTTP Error 403",
          Except.ok ()⟩ initState "mp4" "720p").2 = Except.error w ∧
      ("HTTP Error 403" : String).toList <:+: w.toList) :=
  ⟨rfl, rfl, rfl, by decide,
    (c9_main ⟨Except.ok "/tmp/x", Except.ok "title", Except.error "HTTP Error 403",
        Except.ok ()⟩ initState "720p" "HTTP Error 403").2.2.1
      "/tmp/x" "title" 720 rfl rfl (by decide) rfl⟩

/-! ### Claim theorems: duration parsing -/

theorem contains_eq_true {l : List Char} {c : Char} (h : c ∈ l) :
    l.contains c = true := List.elem_iff.mpr h

theorem contains_eq_false {l : List Char} {c : Char} (h : c ∉ l) :
    l.contains c = false := by
  rw [← Bool.not_eq_true]
  intro hc
  exact h (List.elem_iff.mp hc)

theorem digit_str_not_mem {d : List Char} (hdig : DigitStr d) {c : Char}
    (hcd : c.isDigit = false) : c ∉ d := by
  intro hm
  have hc := hdig.2 c hm
  rw [hcd] at hc
  exact absurd hc (by decide)

theorem pySplit_ne_nil (c : Char) (l : List Char) : pySplit c l ≠ [] := by
  cases l with
  | nil => simp [pySplit]
  | cons x xs =>
    simp only [pySplit]
    split_ifs
    · simp
    · split <;> simp

theorem pySplit_no_sep (c : Char) (l : List Char) (h : c ∉ l) :
    pySplit c l = [l] := by
  induction l with
  | nil => rfl
  | cons x xs ih =>
    have hx : ¬ x = c := fun he => h (he ▸ List.mem_cons_self x xs)
    have hxs : c ∉ xs := fun hmem => h (List.mem_cons_of_mem x hmem)
    simp only [pySplit, if_neg hx, ih hxs]

theorem pySplit_append (c : Char) (u v : List Char) :
    pySplit c (u ++ c :: v) = pySplit c u ++ pySplit c v := by
  induction u with
  | nil => simp [pySplit]
  | cons x xs ih =>
    obtain ⟨p, ps, hps⟩ : ∃ p ps, pySplit c xs = p :: ps := by
      cases hx : pySplit c xs with
      | nil => exact absurd hx (pySplit_ne_nil c xs)
      | cons p ps => exact ⟨p, ps, rfl⟩
    by_cases hx : x = c
    · subst hx
      simp only [List.cons_append, pySplit, if_pos rfl, if_true, List.append_eq]
      rw [ih]
    · simp only [List.cons_append, pySplit, if_neg hx, List.append_eq]
      rw [ih, hps]
      simp [List.cons_append]

theorem pyIntDigits_eq {cs : List Char} (h : DigitStr cs) :
    pyIntDigits cs = some (digitVal cs) := by
  unfold pyIntDigits digitVal
  rw [if_pos]
  exact ⟨h.1, List.all_eq_true.mpr (fun c hc => h.2 c hc)⟩

theorem pd_hours_present {hd rest : List Char} (hdig : DigitStr hd)
    (hH : 'H' ∉ rest) :
    pd_hours (hd ++ 'H' :: rest) = some (digitVal hd, rest) := by
  have hHhd : 'H' ∉ hd := digit_str_not_mem hdig (by decide)
  have hc : (hd ++ 'H' :: rest).contains 'H' = true :=
    contains_eq_true (List.mem_append_right hd (List.mem_cons_self _ _))
  simp only [pd_hours, hc, if_true]
  rw [pySplit_append, pySplit_no_sep _ _ hHhd, pySplit_no_sep _ _ hH]
  simp [pyIntDigits_eq hdig]

theorem pd_hours_absent {d : List Char} (h : 'H' ∉ d) :
    pd_hours d = some (0, d) := by
  simp only [pd_hours, contains_eq_false h]
  rfl

theorem pd_minutes_present {md rest : List Char} (hdig : DigitStr md)
    (hM : 'M' ∉ rest) :
    pd_minutes (md ++ 'M' :: rest) = some (digitVal md, rest) := by
  have hMmd : 'M' ∉ md := digit_str_not_mem hdig (by decide)
  have hc : (md ++ 'M' :: rest).contains 'M' = true :=
    contains_eq_true (List.mem_append_right md (List.mem_cons_self _ _))
  simp only [pd_minutes, hc, if_true]
  rw [pySplit_append, pySplit_no_sep _ _ hMmd, pySplit_no_sep _ _ hM]
  simp [pyIntDigits_eq hdig]

theorem pd_minutes_absent {d : List Char} (h : 'M' ∉ d) :
    pd_minutes d = some (0, d) := by
  simp only [pd_minutes, contains_eq_false h]
  rfl

theorem pd_seconds_present {sd : List Char} (hdig : DigitStr sd) :
    pd_seconds (sd ++ ['S']) = some (digitVal sd) := by
  have hSsd : 'S' ∉ sd := digit_str_not_mem hdig (by decide)
  have hc : (sd ++ ['S']).contains 'S' = true :=
    contains_eq_true (List.mem_append_right sd (List.mem_cons_self _ _))
  simp only [pd_seconds, hc, if_true]
  rw [show sd ++ ['S'] = sd ++ 'S' :: [] from rfl, pySplit_append,
    pySplit_no_sep _ _ hSsd]
  simp [pyIntDigits_eq hdig, pySplit]

theorem pd_seconds_absent {d : List Char} (h : 'S' ∉ d) :
    pd_seconds d = some 0 := by
  simp only [pd_seconds, contains_eq_false h]
  rfl

theorem not_mem_part {c tmk : Char} (hne : c ≠ tmk) (hcd : c.isDigit = false)
    (o : Option (List Char)) (ho : ∀ d ∈ o, DigitStr d) :
    c ∉ o.elim [] (fun d => d ++ [tmk]) := by
  cases o with
  | none => simp
  | some d =>
    intro hmem
    simp only [Option.elim_some] at hmem
    rcases List.mem_append.mp hmem with hin | hin
    · exact digit_str_not_mem (ho d rfl) hcd hin
    · exact hne (List.mem_singleton.mp hin)

/-- C7: for every compact duration token whose optional components appear in
the fixed order hours, minutes, seconds, each a digit run terminated by its
marker character, `parse_duration` returns hours*3600 + minutes*60 + seconds
with missing components defaulting to zero; in particular "PT1H21M54S"
parses to 4914, "PT0S" to 0, "PT45S" to 45, "PT2M" to 120, and the token
with no components parses to 0 rather than failing. -/
theorem c7_main (h m s : Option (List Char))
    (hh : ∀ d ∈ h, DigitStr d) (hmm : ∀ d ∈ m, DigitStr d)
    (hss : ∀ d ∈ s, DigitStr d) :
    (parse_duration (durToken h m s) =
      some (h.elim 0 digitVal * 3600 + m.elim 0 digitVal * 60
        + s.elim 0 digitVal)) ∧
    parse_duration "PT1H21M54S".toList = some 4914 ∧
    parse_duration "PT0S".toList = some 0 ∧
    parse_duration "PT45S".toList = some 45 ∧
    parse_duration "PT2M".toList = some 120 ∧
    parse_duration "PT".toList = some 0 := by
  refine ⟨?_, by decide, by decide, by decide, by decide, by decide⟩
  have hM_s : 'M' ∉ s.elim [] (fun d => d ++ ['S']) :=
    not_mem_part (by decide) (by decide) s hss
  have hH_ms : 'H' ∉ (m.elim [] (fun d => d ++ ['M'])
      ++ s.elim [] (fun d => d ++ ['S'])) := by
    intro hmem
    rcases List.mem_append.mp hmem with hin | hin
    · exact not_mem_part (by decide) (by decide) m hmm hin
    · exact not_mem_part (by decide) (by decide) s hss hin
  have h1 : pd_hours (h.elim [] (fun d => d ++ ['H'])
      ++ (m.elim [] (fun d => d ++ ['M']) ++ s.elim [] (fun d => d ++ ['S'])))
      = some (h.elim 0 digitVal,
          m.elim [] (fun d => d ++ ['M']) ++ s.elim [] (fun d => d ++ ['S'])) := by
    cases h with
    | none =>
      simp only [Option.elim_none, List.nil_append]
      exact pd_hours_absent hH_ms
    | some hd =>
      simp only [Option.elim_some]
      rw [List.append_assoc, List.singleton_append]
      exact pd_hours_present (hh hd rfl) hH_ms
  have h2 : pd_minutes (m.elim [] (fun d => d ++ ['M'])
      ++ s.elim [] (fun d => d ++ ['S']))
      = some (m.elim 0 digitVal, s.elim [] (fun d => d ++ ['S'])) := by
    cases m with
    | none =>
      simp only [Option.elim_none, List.nil_append]
      exact pd_minutes_absent hM_s
    | some md =>
      simp only [Option.elim_some]
      rw [List.append_assoc, List.singleton_append]
      exact pd_minutes_present (hmm md rfl) hM_s
  have h3 : pd_seconds (s.elim [] (fun d => d ++ ['S']))
      = some (s.elim 0 digitVal) := by
    cases s with
    | none => exact pd_seconds_absent (by simp)
    | some sd => exact pd_seconds_present (hss sd rfl)
  have hdrop : (durToken h m s).drop 2
      = h.elim [] (fun d => d ++ ['H'])
        ++ (m.elim [] (fun d => d ++ ['M']) ++ s.elim [] (fun d => d ++ ['S'])) := rfl
  simp [parse_duration, hdrop, h1, h2, h3]

theorem c7_witness :
    ((∀ d ∈ (some ['1'] : Option (List Char)), DigitStr d) ∧
      (∀ d ∈ (some ['2', '1'] : Option (List Char)), DigitStr d) ∧
      (∀ d ∈ (some ['5', '4'] : Option (List Char)), DigitStr d)) ∧
    parse_duration (durToken (some ['1']) (some ['2', '1']) (some ['5', '4']))
      = some ((some ['1'] : Option (List Char)).elim 0 digitVal * 3600
          + (some ['2', '1'] : Option (List Char)).elim 0 digitVal * 60
          + (some ['5', '4'] : Option (List Char)).elim 0 digitVal) :=
  ⟨⟨fun d hd => by cases Option.some.inj hd; decide,
    fun d hd => by cases Option.some.inj hd; decide,
    fun d hd => by cases Option.some.inj hd; decide⟩,
    (c7_main (some ['1']) (some ['2', '1']) (some ['5', '4'])
      (fun d hd => by cases Option.some.inj hd; decide)
      (fun d hd => by cases Option.some.inj hd; decide)
      (fun d hd => by cases Option.some.inj hd; decide)).1⟩

/-! ### Claim theorems: video-identifier extraction -/

theorem validId_not_mem {id : List Char} (hv : ValidId id) {c : Char}
    (hc : idChar c = false) : c ∉ id := by
  intro hmem
  have := hv.2 c hmem
  rw [hc] at this
  exact absurd this (by decide)

/-- An occurrence of `pat` inside `a ++ b` lies inside `a`, inside `b`, or
straddles the boundary with a non-trivial split of `pat` into a suffix of
`a` and a prefix of `b`. -/
theorem infix_append_cases {pat a b : List Char} (h : pat <:+: a ++ b) :
    pat <:+: a ∨ pat <:+: b ∨
      ∃ k, 0 < k ∧ k < pat.length ∧ pat.take k <:+ a ∧ pat.drop k <+: b := by
  obtain ⟨s, t, hst⟩ := h
  by_cases h1 : s.length + pat.length ≤ a.length
  · left
    have hpat : pat = (a.drop s.length).take pat.length := by
      have e1 : (s ++ (pat ++ t)).drop s.length = pat ++ t := List.drop_left s (pat ++ t)
      have e2 : a ++ b = s ++ (pat ++ t) := by rw [← hst]; simp [List.append_assoc]
      have e3 : (a ++ b).drop s.length = a.drop s.length ++ b :=
        List.drop_append_of_le_length (by omega)
      have e4 : a.drop s.length ++ b = pat ++ t := by rw [← e3, e2, e1]
      have e5 : (a.drop s.length ++ b).take pat.length
          = (a.drop s.length).take pat.length :=
        List.take_append_of_le_length (by simp; omega)
      rw [← e5, e4, List.take_left' rfl]
    rw [hpat]
    exact (List.IsPrefix.isInfix ⟨(a.drop s.length).drop pat.length,
      List.take_append_drop pat.length (a.drop s.length)⟩).trans
      (List.IsSuffix.isInfix (List.drop_suffix s.length a))
  · by_cases h2 : a.length ≤ s.length
    · right; left
      have e2 : a ++ b = s ++ (pat ++ t) := by rw [← hst]; simp [List.append_assoc]
      have e3 : (a ++ b).drop a.length = b := List.drop_left a b
      have e4 : (s ++ (pat ++ t)).drop a.length = s.drop a.length ++ (pat ++ t) :=
        List.drop_append_of_le_length h2
      have e5 : b = s.drop a.length ++ (pat ++ t) := by rw [← e4, ← e2, e3]
      exact ⟨s.drop a.length, t, by rw [e5]; simp [List.append_assoc]⟩
    · right; right
      refine ⟨a.length - s.length, by omega, by omega, ?_, ?_⟩
      · have e2 : a ++ b = s ++ (pat ++ t) := by rw [← hst]; simp [List.append_assoc]
        have e3 : (a ++ b).take a.length = a := List.take_left a b
        have e4 : (s ++ (pat ++ t)).take (s.length + (a.length - s.length))
            = s ++ (pat ++ t).take (a.length - s.length) :=
          List.take_append (a.length - s.length)
        have e5 : (pat ++ t).take (a.length - s.length)
            = pat.take (a.length - s.length) :=
          List.take_append_of_le_length (by omega)
        have e6 : a = s ++ pat.take (a.length - s.length) := by
          rw [← e5, ← e4, show s.length + (a.length - s.length) = a.length by omega,
            ← e2, e3]
        exact ⟨s, e6.symm⟩
      · have e2 : a ++ b = s ++ (pat ++ t) := by rw [← hst]; simp [List.append_assoc]
        have e3 : (a ++ b).drop a.length = b := List.drop_left a b
        have e4 : (s ++ (pat ++ t)).drop (s.length + (a.length - s.length))
            = (pat ++ t).drop (a.length - s.length) :=
          List.drop_append (a.length - s.length)
        have e5 : (pat ++ t).drop (a.length - s.length)
            = pat.drop (a.length - s.length) ++ t :=
          List.drop_append_of_le_length (by omega)
        have e6 : b = pat.drop (a.length - s.length) ++ t := by
          rw [← e5, ← e4, show s.length + (a.length - s.length) = a.length by omega,
            ← e2, e3]
        exact ⟨t, e6.symm⟩

/-- `pat` does not occur in `a ++ id` when it does not occur in `a`, contains
a character outside the `good` alphabet of `id`, and no straddling split
survives the `noStraddle` check. -/
theorem not_infix_append (pat a id : List Char) (good : Char → Bool)
    (hid : ∀ c ∈ id, good c = true)
    (h1 : containsSub pat a = false)
    (h2 : ∃ c ∈ pat, good c = false)
    (h3 : noStraddle pat a good = true) :
    containsSub pat (a ++ id) = false := by
  unfold containsSub at h1 ⊢
  rw [decide_eq_false_iff_not] at h1 ⊢
  intro hinf
  rcases infix_append_cases hinf with hc | hc | ⟨k, hk0, hklen, hsuf, hpre⟩
  · exact h1 hc
  · obtain ⟨c, hcpat, hcg⟩ := h2
    have hcid : c ∈ id := hc.subset hcpat
    rw [hid c hcid] at hcg
    exact absurd hcg (by decide)
  · have hr := List.all_eq_true.mp h3 k (List.mem_range.mpr hklen)
    rcases (Bool.or_eq_true _ _).mp hr with h01 | hg
    · rcases (Bool.or_eq_true _ _).mp h01 with h0 | hns
      · have : k = 0 := by simpa using h0
        omega
      · cases hb : decide (pat.take k <:+ a) with
        | false => exact absurd hsuf (of_decide_eq_false hb)
        | true => rw [hb] at hns; exact absurd hns (by decide)
    · cases hbg : good ((pat.drop k).headD ' ') with
      | true => rw [hbg] at hg; exact absurd hg (by decide)
      | false =>
        obtain ⟨c, cs, hcs⟩ : ∃ c cs, pat.drop k = c :: cs :=
          List.exists_cons_of_ne_nil (by
            intro hnil
            have := List.drop_eq_nil_iff.mp hnil
            omega)
        rw [hcs] at hpre hbg
        have hcid : c ∈ id := hpre.subset (List.mem_cons_self c cs)
        rw [show (c :: cs).headD ' ' = c from rfl, hid c hcid] at hbg
        exact absurd hbg (by decide)

theorem containsSub_append_left (pat a b : List Char)
    (h : containsSub pat a = true) : containsSub pat (a ++ b) = true := by
  unfold containsSub at h ⊢
  rw [decide_eq_true_eq] at h ⊢
  exact h.trans (List.IsPrefix.isInfix ⟨b, rfl⟩)

theorem all_append {p : Char → Bool} {a b : List Char}
    (ha : ∀ c ∈ a, p c = true) (hb : ∀ c ∈ b, p c = true) :
    ∀ c ∈ a ++ b, p c = true :=
  fun c hc => (List.mem_append.mp hc).elim (ha c) (hb c)

theorem validId_pred {id : List Char} (hv : ValidId id) {mk : Char}
    (hmk : idChar mk = false) : ∀ c ∈ id, (decide (c ≠ mk)) = true :=
  fun c hc => decide_eq_true (fun he => validId_not_mem hv hmk (he ▸ hc))

theorem takeWhile_append_all {p : Char → Bool} {a : List Char} (b : List Char)
    (h : ∀ c ∈ a, p c = true) : (a ++ b).takeWhile p = a ++ b.takeWhile p := by
  induction a with
  | nil => simp
  | cons x xs ih =>
    rw [List.cons_append, List.takeWhile_cons_of_pos (h x (List.mem_cons_self x xs)),
      ih (fun c hc => h c (List.mem_cons_of_mem x hc)), List.cons_append]

theorem dropWhile_append_all {p : Char → Bool} {a : List Char} (b : List Char)
    (h : ∀ c ∈ a, p c = true) : (a ++ b).dropWhile p = b.dropWhile p := by
  induction a with
  | nil => simp
  | cons x xs ih =>
    rw [List.cons_append, List.dropWhile_cons_of_pos (h x (List.mem_cons_self x xs)),
      ih (fun c hc => h c (List.mem_cons_of_mem x hc))]

theorem lastSegBeforeQuery_append (a id : List Char)
    (h1 : '/' ∉ id) (h2 : '?' ∉ id) :
    lastSegBeforeQuery (a ++ '/' :: id) = id := by
  unfold lastSegBeforeQuery
  rw [pySplit_append, pySplit_no_sep '/' id h1, List.getLastD_concat]
  exact List.takeWhile_eq_self_iff.mpr
    (fun c hc => decide_eq_true (fun he => h2 (he ▸ hc)))

theorem pyQuery_watch (id : List Char) (hv : ValidId id) :
    pyQuery (watchUrl id) = 'v' :: '=' :: id := by
  have hw : watchUrl id
      = "https://www.youtube.com/watch".toList ++ '?' :: 'v' :: '=' :: id := by
    unfold watchUrl
    rw [show ("https://www.youtube.com/watch?v=".toList : List Char)
        = "https://www.youtube.com/watch".toList ++ ['?', 'v', '='] from rfl]
    simp [List.append_assoc]
  have hhash : (watchUrl id).takeWhile (· ≠ '#') = watchUrl id := by
    apply List.takeWhile_eq_self_iff.mpr
    unfold watchUrl
    exact all_append (by decide) (validId_pred hv (by decide))
  have hq : (watchUrl id).contains '?' = true := by
    unfold watchUrl
    exact contains_eq_true (List.mem_append_left id (by decide))
  simp only [pyQuery]
  rw [hhash, if_pos hq, hw,
    dropWhile_append_all _ (by decide : ∀ c ∈ "https://www.youtube.com/watch".toList,
      (decide (c ≠ '?')) = true),
    List.dropWhile_cons_of_neg (by decide)]
  rfl

theorem parse_qs_v_eq (id : List Char) (hv : ValidId id) :
    parse_qs_v ('v' :: '=' :: id) = id := by
  have hamp : '&' ∉ 'v' :: '=' :: id := by
    intro hmem
    rcases List.mem_cons.mp hmem with he | hmem
    · exact absurd he (by decide)
    rcases List.mem_cons.mp hmem with he | hmem
    · exact absurd he (by decide)
    · exact validId_not_mem hv (by decide) hmem
  have hval : (('v' :: '=' :: id).dropWhile (· ≠ '=')).drop 1 = id := by
    rw [List.dropWhile_cons_of_pos (by decide), List.dropWhile_cons_of_neg (by decide)]
    rfl
  have hname : ('v' :: '=' :: id).takeWhile (· ≠ '=') = ['v'] := by
    rw [List.takeWhile_cons_of_pos (by decide), List.takeWhile_cons_of_neg (by decide)]
  simp only [parse_qs_v]
  rw [pySplit_no_sep '&' _ hamp]
  simp only [List.filterMap_cons, List.filterMap_nil]
  rw [if_neg (List.cons_ne_nil 'v' ('=' :: id)),
    if_pos (contains_eq_true (List.mem_cons_of_mem 'v' (List.mem_cons_self '=' id))),
    if_neg (by rw [hval]; exact hv.1), hname, hval]
  rw [List.find?_cons_of_pos _ (by rfl)]

theorem ne_true_of_false {b : Bool} (h : b = false) : ¬ b = true := by
  rw [h]; exact Bool.false_ne_true

theorem extract_short (id : List Char) (hv : ValidId id) :
    extract_video_id (shortUrl id) = some id := by
  have hc1 : containsSub "youtu.be".toList (shortUrl id) = true := by
    unfold shortUrl
    exact containsSub_append_left _ _ id (by decide)
  have hseg : lastSegBeforeQuery (shortUrl id) = id := by
    rw [show shortUrl id = "https://youtu.be".toList ++ '/' :: id from rfl]
    exact lastSegBeforeQuery_append _ id
      (validId_not_mem hv (by decide)) (validId_not_mem hv (by decide))
  simp only [extract_video_id]
  rw [if_pos hc1, hseg, if_neg hv.1]

theorem extract_watch (id : List Char) (hv : ValidId id) :
    extract_video_id (watchUrl id) = some id := by
  have hno1 : containsSub "youtu.be".toList (watchUrl id) = false := by
    unfold watchUrl
    exact not_infix_append _ _ id idChar (fun c hc => hv.2 c hc)
      (by decide) (by decide) (by decide)
  have hc2 : containsSub "youtube.com/watch".toList (watchUrl id) = true := by
    unfold watchUrl
    exact containsSub_append_left _ _ id (by decide)
  have hpv : parse_qs_v (pyQuery (watchUrl id)) = id := by
    rw [pyQuery_watch id hv]
    exact parse_qs_v_eq id hv
  simp only [extract_video_id]
  rw [if_neg (ne_true_of_false hno1), if_pos hc2, hpv, if_neg hv.1]

theorem extract_shorts (id : List Char) (hv : ValidId id) :
    extract_video_id (shortsUrl id) = some id := by
  have hno1 : containsSub "youtu.be".toList (shortsUrl id) = false := by
    unfold shortsUrl
    exact not_infix_append _ _ id idChar (fun c hc => hv.2 c hc)
      (by decide) (by decide) (by decide)
  have hno2 : containsSub "youtube.com/watch".toList (shortsUrl id) = false := by
    unfold shortsUrl
    exact not_infix_append _ _ id idChar (fun c hc => hv.2 c hc)
      (by decide) (by decide) (by decide)
  have hc3 : containsSub "youtube.com/shorts".toList (shortsUrl id) = true := by
    unfold shortsUrl
    exact containsSub_append_left _ _ id (by decide)
  have hseg : lastSegBeforeQuery (shortsUrl id) = id := by
    rw [show shortsUrl id = "https://www.youtube.com/shorts".toList ++ '/' :: id from rfl]
    exact lastSegBeforeQuery_append _ id
      (validId_not_mem hv (by decide)) (validId_not_mem hv (by decide))
  simp only [extract_video_id]
  rw [if_neg (ne_true_of_false hno1), if_neg (ne_true_of_false hno2),
    if_pos hc3, hseg, if_neg hv.1]

theorem extract_embed (id : List Char) (hv : ValidId id) :
    extract_video_id (embedUrl id) = some id := by
  have hno1 : containsSub "youtu.be".toList (embedUrl id) = false := by
    unfold embedUrl
    exact not_infix_append _ _ id idChar (fun c hc => hv.2 c hc)
      (by decide) (by decide) (by decide)
  have hno2 : containsSub "youtube.com/watch".toList (embedUrl id) = false := by
    unfold embedUrl
    exact not_infix_append _ _ id idChar (fun c hc => hv.2 c hc)
      (by decide) (by decide) (by decide)
  have hno3 : containsSub "youtube.com/shorts".toList (embedUrl id) = false := by
    unfold embedUrl
    exact not_infix_append _ _ id idChar (fun c hc => hv.2 c hc)
      (by decide) (by decide) (by decide)
  have hc4 : containsSub "youtube.com/embed".toList (embedUrl id) = true := by
    unfold embedUrl
    exact containsSub_append_left _ _ id (by decide)
  have hseg : lastSegBeforeQuery (embedUrl id) = id := by
    rw [show embedUrl id = "https://www.youtube.com/embed".toList ++ '/' :: id from rfl]
    exact lastSegBeforeQuery_append _ id
      (validId_not_mem hv (by decide)) (validId_not_mem hv (by decide))
  simp only [extract_video_id]
  rw [if_neg (ne_true_of_false hno1), if_neg (ne_true_of_false hno2),
    if_neg (ne_true_of_false hno3), if_pos hc4, hseg, if_neg hv.1]

/-- C8: for each of the four accepted URL shapes carrying a valid embedded
identifier, `extract_video_id` returns that identifier; for every URL
containing none of the four shape markers, and for shape-matching URLs whose
embedded identifier is empty, extraction fails (the `ValueError` that makes
metadata resolution fail with the invalid-URL error). -/
theorem c8_main (id : List Char) (hv : ValidId id) :
    extract_video_id (shortUrl id) = some id ∧
    extract_video_id (watchUrl id) = some id ∧
    extract_video_id (shortsUrl id) = some id ∧
    extract_video_id (embedUrl id) = some id ∧
    (∀ url : List Char,
      containsSub "youtu.be".toList url = false →
      containsSub "youtube.com/watch".toList url = false →
      containsSub "youtube.com/shorts".toList url = false →
      containsSub "youtube.com/embed".toList url = false →
      extract_video_id url = none) ∧
    extract_video_id "https://youtu.be/".toList = none ∧
    extract_video_id "https://www.youtube.com/watch?v=".toList = none := by
  refine ⟨extract_short id hv, extract_watch id hv, extract_shorts id hv,
    extract_embed id hv, ?_, by decide, by decide⟩
  intro url h1 h2 h3 h4
  simp only [extract_video_id]
  rw [if_neg (ne_true_of_false h1), if_neg (ne_true_of_false h2),
    if_neg (ne_true_of_false h3), if_neg (ne_true_of_false h4), if_pos rfl]

theorem c8_witness :
    ValidId "dQw4w9WgXcQ".toList ∧
    extract_video_id (shortUrl "dQw4w9WgXcQ".toList) = some "dQw4w9WgXcQ".toList ∧
    extract_video_id (watchUrl "dQw4w9WgXcQ".toList) = some "dQw4w9WgXcQ".toList :=
  ⟨by constructor
      · decide
      · decide,
    (c8_main "dQw4w9WgXcQ".toList ⟨by decide, by decide⟩).1,
    (c8_main "dQw4w9WgXcQ".toList ⟨by decide, by decide⟩).2.1⟩
